import Mathlib

/-
Verification of the Media-Manager staged batch file-operation engine and its
Electron front end.  The core engine (OperationStager, Committer, UndoLog,
CacheManager, template renderer) ships as a separate CLI binary that is not
part of this repository's sources; those components are modelled from the
specification.  The Electron layer (cliBridge, preload, RenamePanel,
FileExplorer, App) is embedded directly from the TypeScript sources.
-/

namespace MediaManager

/-- A filesystem is a partial map from paths to file identities. -/
def Fs : Type := String → Option Nat

/-- Pointwise update of a filesystem map. -/
def fsSet (fs : Fs) (p : String) (v : Option Nat) : Fs :=
  fun q => if q = p then v else fs q

/-- The empty filesystem. -/
def fsEmpty : Fs := fun _ => none

/-- Modelled from the spec: a staged rename/move operation's path pair
(StagedOperation.source_path / dest_path). -/
structure StagedOperation where
  source_path : String
  dest_path : String
deriving DecidableEq

/-- Modelled from the spec: per-operation status within a batch. -/
inductive OpStatus where
  | Staged
  | Applied
  | Failed
deriving DecidableEq

/-- Modelled from the spec: the inverse of a rename is the rename of the
destination back to the source. -/
def inverseOp (op : StagedOperation) : StagedOperation :=
  ⟨op.dest_path, op.source_path⟩

/-- Modelled from the spec: an atomic rename attempt.  Fails (`none`) when the
source is missing (NotFound) or the destination is occupied by a different
file (on-disk CollisionError); renaming a path onto itself is a no-op. -/
def applyRename (fs : Fs) (src dst : String) : Option Fs :=
  (fs src).bind (fun v =>
    if src = dst then some fs
    else if (fs dst).isSome then none
    else some (fsSet (fsSet fs src none) dst (some v)))

/-- Result of committing a batch: final filesystem, per-operation outcomes in
submission order, and the UndoRecord of (applied, inverse) pairs. -/
structure CommitResult where
  fs : Fs
  results : List (StagedOperation × OpStatus)
  record : List (StagedOperation × StagedOperation)

/-- Modelled from the spec: the Committer applies the staged operations in
submission order; a failure does not roll back earlier successes, each
outcome is recorded individually, and only Applied operations contribute an
(operation, inverse) pair to the UndoRecord. -/
def commitOps (fs : Fs) : List StagedOperation → CommitResult
  | [] => ⟨fs, [], []⟩
  | op :: ops =>
    match applyRename fs op.source_path op.dest_path with
    | some fs' =>
      let r := commitOps fs' ops
      ⟨r.fs, (op, OpStatus.Applied) :: r.results, (op, inverseOp op) :: r.record⟩
    | none =>
      let r := commitOps fs ops
      ⟨r.fs, (op, OpStatus.Failed) :: r.results, r.record⟩

/-- Modelled from the spec: undo applies one recorded inverse through the
same Committer rename path; an inverse that fails is recorded and leaves the
filesystem unchanged. -/
def applyInverse (fs : Fs) (pr : StagedOperation × StagedOperation) : Fs :=
  match applyRename fs pr.2.source_path pr.2.dest_path with
  | some fs' => fs'
  | none => fs

/-- Modelled from the spec: undo replays the UndoRecord's inverses in reverse
order of original application. -/
def undoOps (record : List (StagedOperation × StagedOperation)) (fs : Fs) : Fs :=
  record.foldr (fun pr acc => applyInverse acc pr) fs

theorem fsSet_eval (fs : Fs) (p q : String) (v : Option Nat) :
    fsSet fs p v q = if q = p then v else fs q := rfl

theorem applyRename_inverse (fs fs' : Fs) (src dst : String)
    (h : applyRename fs src dst = some fs') :
    applyRename fs' dst src = some fs := by
  unfold applyRename at h ⊢
  cases hsrc : fs src with
  | none => simp [hsrc] at h
  | some v =>
    simp only [hsrc, Option.some_bind] at h
    by_cases heq : src = dst
    · subst heq
      rw [if_pos rfl] at h
      cases h
      simp [hsrc]
    · rw [if_neg heq] at h
      by_cases hdst : (fs dst).isSome
      · rw [if_pos hdst] at h; exact absurd h (by simp)
      · rw [if_neg hdst] at h
        have hdstnone : fs dst = none := Option.not_isSome_iff_eq_none.mp hdst
        simp only [Option.some.injEq] at h
        subst h
        have hne : ¬ dst = src := fun hc => heq hc.symm
        have h1 : fsSet (fsSet fs src none) dst (some v) dst = some v := by
          simp [fsSet]
        have h2 : fsSet (fsSet fs src none) dst (some v) src = none := by
          simp only [fsSet]
          rw [if_neg heq]
          simp
        have hfinal :
            fsSet (fsSet (fsSet (fsSet fs src none) dst (some v)) dst none) src (some v)
              = fs := by
          funext q
          simp only [fsSet]
          by_cases hq1 : q = src
          · subst hq1
            rw [if_pos rfl]
            exact hsrc.symm
          · rw [if_neg hq1]
            by_cases hq2 : q = dst
            · subst hq2
              rw [if_pos rfl]
              exact hdstnone.symm
            · rw [if_neg hq2, if_neg hq2, if_neg hq1]
        rw [h1, Option.some_bind, if_neg hne, h2]
        simp only [Option.isSome_none, Bool.false_eq_true, if_false, Option.some.injEq]
        exact hfinal

theorem undoOps_cons (pr : StagedOperation × StagedOperation)
    (record : List (StagedOperation × StagedOperation)) (fs : Fs) :
    undoOps (pr :: record) fs = applyInverse (undoOps record fs) pr := rfl

theorem undo_commit_restores (fs : Fs) (ops : List StagedOperation) :
    undoOps (commitOps fs ops).record (commitOps fs ops).fs = fs := by
  induction ops generalizing fs with
  | nil => rfl
  | cons op ops ih =>
    unfold commitOps
    cases hap : applyRename fs op.source_path op.dest_path with
    | some fs' =>
      simp only
      rw [undoOps_cons, ih fs']
      have hinv := applyRename_inverse fs fs' op.source_path op.dest_path hap
      simp [applyInverse, inverseOp, hinv]
    | none =>
      simp only
      exact ih fs

theorem commit_record_applied (fs : Fs) (ops : List StagedOperation) :
    (commitOps fs ops).record
      = ((commitOps fs ops).results.filter
          (fun r => r.2 = OpStatus.Applied)).map (fun r => (r.1, inverseOp r.1)) := by
  induction ops generalizing fs with
  | nil => rfl
  | cons op ops ih =>
    unfold commitOps
    cases hap : applyRename fs op.source_path op.dest_path with
    | some fs' =>
      simp [List.filter_cons, ih fs']
    | none =>
      simp [List.filter_cons, ih fs]

/-- C1: for every committed batch, undoing it restores every Applied
operation's source/destination pair (indeed the whole filesystem) to its
pre-commit state, and the UndoRecord consists exactly of the inverses of the
Applied operations, so operations that Failed during commit are untouched by
undo. -/
theorem claim1_commit_undo (fs : Fs) (ops : List StagedOperation) :
    (∀ p : String, undoOps (commitOps fs ops).record (commitOps fs ops).fs p = fs p)
    ∧ (commitOps fs ops).record
        = ((commitOps fs ops).results.filter
            (fun r => r.2 = OpStatus.Applied)).map (fun r => (r.1, inverseOp r.1)) := by
  constructor
  · intro p
    rw [undo_commit_restores fs ops]
  · exact commit_record_applied fs ops

/-- Modelled from the spec: a cache entry (key fingerprint, payload size in
bytes, last-access stamp). -/
structure CacheEntry where
  key : String
  size_bytes : Nat
  last_access : Nat
deriving DecidableEq

/-- Total payload bytes held by the cache. -/
def totalBytes (es : List CacheEntry) : Nat :=
  (es.map CacheEntry.size_bytes).sum

/-- Smallest last-access stamp among the entries (0 for an empty cache). -/
def minAccess : List CacheEntry → Nat
  | [] => 0
  | [e] => e.last_access
  | e :: e' :: es => min e.last_access (minAccess (e' :: es))

/-- Remove the first entry carrying the given last-access stamp. -/
def removeFirstMin (m : Nat) : List CacheEntry → List CacheEntry
  | [] => []
  | e :: es => if e.last_access = m then es else e :: removeFirstMin m es

/-- Modelled from the spec: strict LRU eviction, ties broken by insertion
order (the entry list is kept in insertion order, oldest first). -/
def removeLRU (es : List CacheEntry) : List CacheEntry :=
  removeFirstMin (minAccess es) es

/-- Fuel-indexed eviction loop: evict the LRU entry until the total fits the
byte budget. -/
def evictLoop (budget : Nat) : Nat → List CacheEntry → List CacheEntry
  | 0, es => es
  | fuel + 1, es =>
    if totalBytes es ≤ budget then es else evictLoop budget fuel (removeLRU es)

/-- Modelled from the spec: evict entries until the total is within budget. -/
def evictToBudget (budget : Nat) (es : List CacheEntry) : List CacheEntry :=
  evictLoop budget es.length es

/-- In-memory cache index: entries in insertion order plus a logical clock
used for last-access stamps. -/
structure CacheState where
  entries : List CacheEntry
  clock : Nat
deriving DecidableEq

/-- Byte budget configured for the cache. -/
structure CacheConfig where
  max_size_bytes : Nat
deriving DecidableEq

/-- Lookup by fingerprint key. -/
def lookupEntry (es : List CacheEntry) (k : String) : Option CacheEntry :=
  es.find? (fun e => e.key = k)

/-- Refresh the last-access stamp of the entry holding key k. -/
def touchEntry (es : List CacheEntry) (k : String) (now : Nat) : List CacheEntry :=
  es.map (fun e => if e.key = k then { e with last_access := now } else e)

/-- Modelled from the spec: generator failure is a distinct error and stores
no entry. -/
inductive CacheError where
  | generationFailed
deriving DecidableEq

/-- Modelled from the spec: CacheManager.get_or_create.  A hit refreshes the
entry's last-access stamp; a miss runs the generator (here summarised by the
optional size of the produced payload), stores the result, and evicts LRU
entries if the post-insert total exceeds max_size_bytes; a generator failure
is propagated and stores nothing. -/
def get_or_create (cfg : CacheConfig) (c : CacheState) (k : String)
    (generated : Option Nat) : Except CacheError Unit × CacheState :=
  match lookupEntry c.entries k with
  | some _ => (Except.ok (), ⟨touchEntry c.entries k c.clock, c.clock + 1⟩)
  | none =>
    match generated with
    | none => (Except.error CacheError.generationFailed, c)
    | some sz =>
      (Except.ok (),
       ⟨evictToBudget cfg.max_size_bytes (c.entries ++ [⟨k, sz, c.clock⟩]), c.clock + 1⟩)

/-- Modelled from the spec: prune removes entries until the total is at most
max_size_bytes times the watermark percentage. -/
def prune (cfg : CacheConfig) (wm : Nat) (c : CacheState) : CacheState :=
  ⟨evictToBudget (cfg.max_size_bytes * wm / 100) c.entries, c.clock⟩

theorem totalBytes_nil : totalBytes [] = 0 := rfl

theorem totalBytes_eq_zero_iff (es : List CacheEntry) :
    es = [] → totalBytes es = 0 := by
  intro h; subst h; rfl

theorem minAccess_attained (es : List CacheEntry) (h : es ≠ []) :
    ∃ e ∈ es, e.last_access = minAccess es := by
  induction es with
  | nil => exact absurd rfl h
  | cons e es ih =>
    cases es with
    | nil => exact ⟨e, by simp, rfl⟩
    | cons e' es' =>
      rcases ih (by simp) with ⟨w, hw, hwm⟩
      by_cases hle : e.last_access ≤ minAccess (e' :: es')
      · exact ⟨e, by simp, by simp [minAccess, min_eq_left hle]⟩
      · refine ⟨w, by simp [hw], ?_⟩
        have : minAccess (e :: e' :: es') = minAccess (e' :: es') := by
          simp [minAccess, min_eq_right (le_of_not_le hle)]
        rw [this, hwm]

theorem removeFirstMin_length (m : Nat) (es : List CacheEntry)
    (h : ∃ e ∈ es, e.last_access = m) :
    (removeFirstMin m es).length + 1 = es.length := by
  induction es with
  | nil => simp at h
  | cons e es ih =>
    by_cases he : e.last_access = m
    · simp [removeFirstMin, he]
    · have h' : ∃ x ∈ es, x.last_access = m := by
        rcases h with ⟨w, hw, hwm⟩
        rcases List.mem_cons.mp hw with h1 | h1
        · exact absurd (h1 ▸ hwm) he
        · exact ⟨w, h1, hwm⟩
      simp [removeFirstMin, he, ih h']

theorem removeLRU_length (es : List CacheEntry) (h : es ≠ []) :
    (removeLRU es).length + 1 = es.length :=
  removeFirstMin_length (minAccess es) es (minAccess_attained es h)

theorem evictLoop_le (budget : Nat) :
    ∀ fuel es, (es : List CacheEntry).length ≤ fuel →
      totalBytes (evictLoop budget fuel es) ≤ budget := by
  intro fuel
  induction fuel with
  | zero =>
    intro es hlen
    have : es = [] := List.eq_nil_of_length_eq_zero (Nat.le_zero.mp hlen)
    subst this
    simp [evictLoop, totalBytes]
  | succ fuel ih =>
    intro es hlen
    unfold evictLoop
    by_cases hle : totalBytes es ≤ budget
    · simp [hle]
    · have hne : es ≠ [] := by
        intro hnil
        exact hle (by simp [hnil, totalBytes])
      have hlen' : (removeLRU es).length ≤ fuel := by
        have := removeLRU_length es hne
        omega
      simpa [hle] using ih (removeLRU es) hlen'

theorem evictToBudget_le (budget : Nat) (es : List CacheEntry) :
    totalBytes (evictToBudget budget es) ≤ budget :=
  evictLoop_le budget es.length es le_rfl

theorem totalBytes_touch (es : List CacheEntry) (k : String) (now : Nat) :
    totalBytes (touchEntry es k now) = totalBytes es := by
  induction es with
  | nil => rfl
  | cons e es ih =>
    by_cases he : e.key = k
    · simp [touchEntry, totalBytes, he] at ih ⊢
      exact ih
    · simp [touchEntry, totalBytes, he] at ih ⊢
      exact ih

/-- C2: after any completed get_or_create (on a cache currently within its
byte budget) and after any prune with watermark percentage at most 100, the
sum of size_bytes over all cache entries is at most max_size_bytes. -/
theorem claim2_cache_bound (cfg : CacheConfig) (c : CacheState) (k : String)
    (generated : Option Nat) (wm : Nat)
    (hinv : totalBytes c.entries ≤ cfg.max_size_bytes) (hwm : wm ≤ 100) :
    totalBytes (get_or_create cfg c k generated).2.entries ≤ cfg.max_size_bytes
    ∧ totalBytes (prune cfg wm c).entries ≤ cfg.max_size_bytes := by
  constructor
  · unfold get_or_create
    cases hfind : lookupEntry c.entries k with
    | some e =>
      simpa [totalBytes_touch] using hinv
    | none =>
      cases generated with
      | none => simpa using hinv
      | some sz =>
        simpa using evictToBudget_le cfg.max_size_bytes (c.entries ++ [⟨k, sz, c.clock⟩])
  · unfold prune
    have h1 : totalBytes (evictToBudget (cfg.max_size_bytes * wm / 100) c.entries)
        ≤ cfg.max_size_bytes * wm / 100 :=
      evictToBudget_le _ c.entries
    have h2 : cfg.max_size_bytes * wm / 100 ≤ cfg.max_size_bytes := by
      have hmul : cfg.max_size_bytes * wm ≤ cfg.max_size_bytes * 100 :=
        Nat.mul_le_mul_left _ hwm
      calc cfg.max_size_bytes * wm / 100 ≤ cfg.max_size_bytes * 100 / 100 :=
            Nat.div_le_div_right hmul
        _ = cfg.max_size_bytes := Nat.mul_div_cancel _ (by norm_num)
    exact le_trans h1 h2

/-- Witness for C2 at a concrete cache, key, generator and watermark. -/
theorem claim2_cache_bound_witness :
    (totalBytes (⟨[], 0⟩ : CacheState).entries ≤ (⟨10⟩ : CacheConfig).max_size_bytes
        ∧ (80 : Nat) ≤ 100)
    ∧ (totalBytes (get_or_create ⟨10⟩ ⟨[], 0⟩ "a" (some 5)).2.entries ≤ 10
        ∧ totalBytes (prune ⟨10⟩ 80 ⟨[], 0⟩).entries ≤ 10) :=
  ⟨⟨by decide, by decide⟩,
   claim2_cache_bound ⟨10⟩ ⟨[], 0⟩ "a" (some 5) 80 (by decide) (by decide)⟩

/-- Characters after the last occurrence of sep (the whole list if absent). -/
def afterLast (sep : Char) (l : List Char) : List Char :=
  (l.reverse.takeWhile (fun c => c ≠ sep)).reverse

/-- Characters up to and including the last occurrence of sep (empty if
absent). -/
def upToLastWith (sep : Char) (l : List Char) : List Char :=
  (l.reverse.dropWhile (fun c => c ≠ sep)).reverse

/-- File name component of a path. -/
def basename (p : String) : String := String.mk (afterLast '/' p.data)

/-- Directory part of a path, up to and including the final slash. -/
def dirPart (p : String) : String := String.mk (upToLastWith '/' p.data)

/-- Name minus its extension. -/
def stemOf (name : String) : String :=
  if '.' ∈ name.data then String.mk ((upToLastWith '.' name.data).dropLast) else name

/-- Extension of a name, dot included (empty if none). -/
def extOf (name : String) : String :=
  if '.' ∈ name.data then String.mk ('.' :: afterLast '.' name.data) else ""

/-- Media metadata attached to a file record. -/
structure FileMeta where
  resolution : String
  duration : String
  codec : String
deriving DecidableEq

/-- A scanned file record as consumed by the template renderer. -/
structure FileRecordT where
  path : String
  metadata : FileMeta
deriving DecidableEq

/-- Modelled from the spec: the closed enum of recognized template
placeholders mapped to extraction functions over the file record;
unrecognized tokens are reproduced verbatim between braces. -/
def substToken (r : FileRecordT) (t : String) : String :=
  if t = "filename" then stemOf (basename r.path)
  else if t = "resolution" then r.metadata.resolution
  else if t = "codec" then r.metadata.codec
  else if t = "duration" then r.metadata.duration
  else "\x7b" ++ t ++ "\x7d"

/-- Modelled from the spec: one-pass template scanner.  Outside braces,
characters are copied; an opening brace starts token accumulation; a closing
brace substitutes the accumulated token; an unclosed token is reproduced
verbatim. -/
def renderScan (r : FileRecordT) : List Char → Option (List Char) → List Char
  | [], none => []
  | [], some acc => '\x7b' :: acc.reverse
  | c :: rest, none =>
    if c = '\x7b' then renderScan r rest (some [])
    else c :: renderScan r rest none
  | c :: rest, some acc =>
    if c = '\x7d' then (substToken r (String.mk acc.reverse)).data ++ renderScan r rest none
    else renderScan r rest (some (c :: acc))

/-- Modelled from the spec: destination-name computation from a template. -/
def renderTemplate (template : String) (r : FileRecordT) : String :=
  String.mk (renderScan r template.data none)

/-- Modelled from the spec: full destination path, keeping the directory and
re-appending the original extension (stage rename("movie.mp4",
"(filename)_(resolution)") previews "movie_1080p.mp4"). -/
def computeDest (r : FileRecordT) (template : String) : String :=
  dirPart r.path ++ renderTemplate template r ++ extOf (basename r.path)

theorem renderScan_token (r : FileRecordT) :
    ∀ (tok : List Char) (acc rest : List Char), '\x7d' ∉ tok →
      renderScan r (tok ++ '\x7d' :: rest) (some acc)
        = (substToken r (String.mk (acc.reverse ++ tok))).data ++ renderScan r rest none := by
  intro tok
  induction tok with
  | nil =>
    intro acc rest _
    simp [renderScan]
  | cons c tok ih =>
    intro acc rest h
    have hc : ¬ c = '\x7d' := by
      intro hcc
      exact h (by simp [hcc])
    have h' : '\x7d' ∉ tok := fun hm => h (by simp [hm])
    simp only [List.cons_append, renderScan, if_neg hc]
    simpa using ih (c :: acc) rest h'

theorem renderScan_open (r : FileRecordT) (tok rest : List Char) (h : '\x7d' ∉ tok) :
    renderScan r ('\x7b' :: (tok ++ '\x7d' :: rest)) none
      = (substToken r (String.mk tok)).data ++ renderScan r rest none := by
  simp only [renderScan, if_pos rfl]
  rw [renderScan_token r tok [] rest h]
  simp

/-- C7: destination-name computation substitutes exactly the placeholders
filename (original name minus extension), resolution, codec and duration with
values drawn from the file record, copies ordinary characters unchanged, and
reproduces every unrecognized brace token verbatim instead of failing. -/
theorem claim7_template (r : FileRecordT) :
    (∀ rest : List Char,
        renderScan r ('\x7b' :: ("filename".data ++ '\x7d' :: rest)) none
          = (stemOf (basename r.path)).data ++ renderScan r rest none)
    ∧ (∀ rest : List Char,
        renderScan r ('\x7b' :: ("resolution".data ++ '\x7d' :: rest)) none
          = r.metadata.resolution.data ++ renderScan r rest none)
    ∧ (∀ rest : List Char,
        renderScan r ('\x7b' :: ("codec".data ++ '\x7d' :: rest)) none
          = r.metadata.codec.data ++ renderScan r rest none)
    ∧ (∀ rest : List Char,
        renderScan r ('\x7b' :: ("duration".data ++ '\x7d' :: rest)) none
          = r.metadata.duration.data ++ renderScan r rest none)
    ∧ (∀ (tok rest : List Char), '\x7d' ∉ tok →
        String.mk tok ∉ (["filename", "resolution", "codec", "duration"] : List String) →
        renderScan r ('\x7b' :: (tok ++ '\x7d' :: rest)) none
          = '\x7b' :: (tok ++ '\x7d' :: renderScan r rest none))
    ∧ (∀ (c : Char) (rest : List Char), ¬ c = '\x7b' →
        renderScan r (c :: rest) none = c :: renderScan r rest none) := by
  refine ⟨?_, ?_, ?_, ?_, ?_, ?_⟩
  · intro rest
    rw [renderScan_open r "filename".data rest (by decide)]
    simp [substToken]
  · intro rest
    rw [renderScan_open r "resolution".data rest (by decide)]
    simp [substToken]
  · intro rest
    rw [renderScan_open r "codec".data rest (by decide)]
    simp [substToken]
  · intro rest
    rw [renderScan_open r "duration".data rest (by decide)]
    simp [substToken]
  · intro tok rest h hnot
    rw [renderScan_open r tok rest h]
    have h1 : ¬ String.mk tok = "filename" := fun hc => hnot (by simp [hc])
    have h2 : ¬ String.mk tok = "resolution" := fun hc => hnot (by simp [hc])
    have h3 : ¬ String.mk tok = "codec" := fun hc => hnot (by simp [hc])
    have h4 : ¬ String.mk tok = "duration" := fun hc => hnot (by simp [hc])
    simp only [substToken, if_neg h1, if_neg h2, if_neg h3, if_neg h4]
    simp [String.data_append]
  · intro c rest hc
    simp [renderScan, if_neg hc]

/-- Witness for C7: an unrecognized token survives verbatim and an ordinary
character is copied, at a concrete record. -/
theorem claim7_template_witness :
    renderScan ⟨"/m/movie.mp4", ⟨"1080p", "1:30", "h264"⟩⟩
        ('\x7b' :: ("bitrate".data ++ '\x7d' :: [])) none
      = '\x7b' :: ("bitrate".data ++ '\x7d' ::
          renderScan ⟨"/m/movie.mp4", ⟨"1080p", "1:30", "h264"⟩⟩ [] none)
    ∧ renderScan ⟨"/m/movie.mp4", ⟨"1080p", "1:30", "h264"⟩⟩ ('a' :: []) none
      = 'a' :: renderScan ⟨"/m/movie.mp4", ⟨"1080p", "1:30", "h264"⟩⟩ [] none :=
  ⟨(claim7_template ⟨"/m/movie.mp4", ⟨"1080p", "1:30", "h264"⟩⟩).2.2.2.2.1
      "bitrate".data [] (by decide) (by decide),
   (claim7_template ⟨"/m/movie.mp4", ⟨"1080p", "1:30", "h264"⟩⟩).2.2.2.2.2
      'a' [] (by decide)⟩

/-- Modelled from the spec: batch lifecycle states. -/
inductive BState where
  | Draft
  | Committing
  | Committed
  | Undoing
  | Undone
deriving DecidableEq

/-- Modelled from the spec: a batch is an ordered sequence of staged
operations together with a lifecycle state. -/
structure Batch where
  ops : List (StagedOperation × OpStatus)
  state : BState
deriving DecidableEq

/-- Modelled from the spec: errors raised at stage time. -/
inductive StageError where
  | collisionError
  | notDraft
deriving DecidableEq

/-- Result of a stage call: a preview name in dry-run mode, and the possibly
extended batch together with the (untouched) filesystem. -/
structure StageResult where
  preview : Option String
  batch : Batch
  fs : Fs

/-- Modelled from the spec: OperationStager.stage.  Dry-run returns the
computed destination name without touching the batch; otherwise staging is
accepted only on a Draft batch, fails with CollisionError when the
destination exists on disk (unless it equals the source) or when another
Staged operation in the batch already targets it, and else appends a Staged
operation.  Staging never mutates the filesystem. -/
def stage (fs : Fs) (b : Batch) (r : FileRecordT) (template : String)
    (dry_run : Bool) : Except StageError StageResult :=
  let dest := computeDest r template
  if dry_run then Except.ok ⟨some dest, b, fs⟩
  else if ¬ b.state = BState.Draft then Except.error StageError.notDraft
  else if ¬ dest = r.path ∧ (fs dest).isSome then Except.error StageError.collisionError
  else if b.ops.any (fun p => decide (p.2 = OpStatus.Staged ∧ p.1.dest_path = dest)) then
    Except.error StageError.collisionError
  else Except.ok ⟨none, ⟨b.ops ++ [(⟨r.path, dest⟩, OpStatus.Staged)], b.state⟩, fs⟩

/-- C4: in a Draft batch, staging a second operation whose computed
destination equals the destination of an already Staged operation fails with
CollisionError, and the first operation is still Staged in the batch. -/
theorem claim4_stage_collision (fs : Fs) (b : Batch) (r1 r2 : FileRecordT)
    (t1 t2 : String) (s1 : StageResult)
    (h1 : stage fs b r1 t1 false = Except.ok s1)
    (hdest : computeDest r2 t2 = computeDest r1 t1) :
    stage fs s1.batch r2 t2 false = Except.error StageError.collisionError
    ∧ (⟨r1.path, computeDest r1 t1⟩, OpStatus.Staged) ∈ s1.batch.ops := by
  simp only [stage] at h1
  rw [if_neg (by simp)] at h1
  by_cases hdraft : b.state = BState.Draft
  · rw [if_neg (by simp [hdraft])] at h1
    by_cases hcol1 : ¬ computeDest r1 t1 = r1.path ∧ (fs (computeDest r1 t1)).isSome
    · rw [if_pos hcol1] at h1
      exact absurd h1 (by simp)
    · rw [if_neg hcol1] at h1
      by_cases hany : b.ops.any
          (fun p => decide (p.2 = OpStatus.Staged ∧ p.1.dest_path = computeDest r1 t1))
      · rw [if_pos hany] at h1
        exact absurd h1 (by simp)
      · rw [if_neg hany] at h1
        have hs1 : s1 = ⟨none, ⟨b.ops ++ [(⟨r1.path, computeDest r1 t1⟩, OpStatus.Staged)],
            b.state⟩, fs⟩ := by
          cases h1
          rfl
        subst hs1
        constructor
        · simp only [stage, hdest]
          rw [if_neg (by simp)]
          rw [if_neg (by simp [hdraft])]
          by_cases hcol2 : ¬ computeDest r1 t1 = r2.path ∧ (fs (computeDest r1 t1)).isSome
          · rw [if_pos hcol2]
          · rw [if_neg hcol2]
            rw [if_pos (by simp [List.any_append])]
        · simp
  · rw [if_pos (by simp [hdraft])] at h1
    exact absurd h1 (by simp)

/-- Concrete one-file filesystem for the C4 witness. -/
def fsOneA : Fs := fun p => if p = "/d/a.mp4" then some 1 else none

/-- Concrete file record for the C4 witness. -/
def recA : FileRecordT := ⟨"/d/a.mp4", ⟨"1080p", "1h", "h264"⟩⟩

/-- Batch produced by the first stage call of the C4 witness. -/
def stagedA : StageResult :=
  ⟨none, ⟨[(⟨"/d/a.mp4", computeDest recA "x"⟩, OpStatus.Staged)], BState.Draft⟩, fsOneA⟩

/-- Witness for C4 at a concrete filesystem, batch and template. -/
theorem claim4_stage_collision_witness :
    stage fsOneA ⟨[], BState.Draft⟩ recA "x" false = Except.ok stagedA
    ∧ (stage fsOneA stagedA.batch recA "x" false = Except.error StageError.collisionError
        ∧ (⟨recA.path, computeDest recA "x"⟩, OpStatus.Staged) ∈ stagedA.batch.ops) :=
  ⟨rfl, claim4_stage_collision fsOneA ⟨[], BState.Draft⟩ recA recA "x" "x" stagedA rfl rfl⟩

/-- RenamePanel component state: current file, template input, preview text
and the isStaged flag. -/
structure PanelState where
  filePath : String
  template : String
  preview : Option String
  isStaged : Bool
deriving DecidableEq

/-- Message sent on the rename channel by the panel. -/
structure RenameRequest where
  file : String
  template : String
  dryRun : Bool
deriving DecidableEq

/-- RenamePanel.handlePreview sends a rename request with dryRun true. -/
def handlePreviewSend (p : PanelState) : RenameRequest :=
  ⟨p.filePath, p.template, true⟩

/-- RenamePanel.handleStage sends a rename request with dryRun false. -/
def handleStageSend (p : PanelState) : RenameRequest :=
  ⟨p.filePath, p.template, false⟩

/-- cliBridge rename handler argument list: the dry-run flag is appended
exactly when the request carries dryRun. -/
def renameArgs (file template : String) (dryRun : Bool) : List String :=
  ["rename", file, template] ++ (if dryRun then ["--dry-run"] else [])

/-- C6: a dry-run stage returns the destination name computed from the
template while leaving the batch and the filesystem unchanged; the rename
handler forwards the dry-run flag to the CLI exactly when requested, and the
panel's preview action requests dry-run mode. -/
theorem claim6_dry_run (fs : Fs) (b : Batch) (r : FileRecordT) (t : String)
    (file tpl : String) (d : Bool) (p : PanelState) :
    stage fs b r t true = Except.ok ⟨some (computeDest r t), b, fs⟩
    ∧ renameArgs file tpl true = ["rename", file, tpl, "--dry-run"]
    ∧ renameArgs file tpl false = ["rename", file, tpl]
    ∧ (renameArgs file tpl d).length = 3 + (if d then 1 else 0)
    ∧ (handlePreviewSend p).dryRun = true := by
  refine ⟨rfl, rfl, rfl, ?_, rfl⟩
  cases d <;> simp [renameArgs]

/-- Position of each batch state along the lifecycle chain. -/
def rank : BState → Nat
  | BState.Draft => 0
  | BState.Committing => 1
  | BState.Committed => 2
  | BState.Undoing => 3
  | BState.Undone => 4

/-- Modelled from the spec: the only forward transitions of the batch state
machine. -/
def nextState : BState → Option BState
  | BState.Draft => some BState.Committing
  | BState.Committing => some BState.Committed
  | BState.Committed => some BState.Undoing
  | BState.Undoing => some BState.Undone
  | BState.Undone => none

/-- Modelled from the spec: Draft is the only state accepting stage. -/
def stageAllowed (s : BState) : Bool := s = BState.Draft

/-- Undo-eligibility bookkeeping: id of the most recently committed batch. -/
structure Engine where
  lastCommitted : Option Nat
deriving DecidableEq

/-- Modelled from the spec: undo on a superseded batch fails. -/
inductive UndoError where
  | staleBatchError
deriving DecidableEq

/-- Modelled from the spec: undo is accepted only for the most recently
committed batch, in state Committed; anything else is StaleBatchError. -/
def undoEligible (e : Engine) (bid : Nat) (s : BState) : Except UndoError Unit :=
  if e.lastCommitted = some bid ∧ s = BState.Committed then Except.ok ()
  else Except.error UndoError.staleBatchError

/-- RenamePanel stage-result callback sets isStaged. -/
def handleStageResult (p : PanelState) : PanelState := { p with isStaged := true }

/-- RenamePanel.handleCommit sends the commit message and clears isStaged. -/
def handleCommit (p : PanelState) : PanelState × String :=
  ({ p with isStaged := false }, "commit")

/-- RenamePanel.handleUndo sends the undo message and clears isStaged. -/
def handleUndo (p : PanelState) : PanelState × String :=
  ({ p with isStaged := false }, "undo")

/-- The panel's Undo button is disabled exactly when nothing is staged. -/
def undoDisabled (p : PanelState) : Bool := !p.isStaged

/-- The panel's Commit button is disabled exactly when nothing is staged. -/
def commitDisabled (p : PanelState) : Bool := !p.isStaged

/-- C5 counterexample: right after a successful stage the batch is Draft
(staged but uncommitted), yet the renderer's Undo button is enabled and
clicking it sends the undo message, so undo is invoked on a Draft batch;
right after commit the button is disabled, so the panel cannot undo the
just-Committed batch. -/
theorem claim5_counterexample :
    undoDisabled (handleStageResult ⟨"/t/v.mp4", "_test", none, false⟩) = false
    ∧ (handleUndo (handleStageResult ⟨"/t/v.mp4", "_test", none, false⟩)).2 = "undo"
    ∧ undoDisabled (handleCommit (handleStageResult ⟨"/t/v.mp4", "_test", none, false⟩)).1
        = true :=
  ⟨rfl, rfl, rfl⟩

/-- C5 amended: in the spec-modelled engine the batch state machine is the
chain Draft, Committing, Committed, Undoing, Undone with strictly increasing
rank (no state re-entered), stage is accepted only in Draft, and undo
succeeds only on the most recently Committed batch, failing with
StaleBatchError otherwise; the renderer, however, enables its Undo action
exactly while a rename is staged but uncommitted and disables it after
commit. -/
theorem claim5_amended (s s' : BState) (e : Engine) (bid : Nat) (p : PanelState) :
    (stageAllowed s = true ↔ s = BState.Draft)
    ∧ (nextState s = some s' → rank s < rank s')
    ∧ (¬ e.lastCommitted = some bid →
        undoEligible e bid BState.Committed = Except.error UndoError.staleBatchError)
    ∧ (undoEligible e bid s = Except.ok () →
        e.lastCommitted = some bid ∧ s = BState.Committed)
    ∧ undoDisabled p = !p.isStaged
    ∧ (handleCommit p).1.isStaged = false := by
  refine ⟨?_, ?_, ?_, ?_, rfl, rfl⟩
  · simp [stageAllowed]
  · intro h
    cases s <;> simp [nextState] at h <;> (subst h; simp [rank])
  · intro h
    simp [undoEligible, h]
  · intro h
    by_cases hc : e.lastCommitted = some bid ∧ s = BState.Committed
    · exact hc
    · simp [undoEligible, hc] at h

/-- Witness for C5 amended: a concrete transition strictly advances the
chain, and undo on a batch that is not the most recently committed one is
StaleBatchError. -/
theorem claim5_amended_witness :
    rank BState.Draft < rank BState.Committing
    ∧ undoEligible ⟨some 1⟩ 2 BState.Committed = Except.error UndoError.staleBatchError :=
  ⟨(claim5_amended BState.Draft BState.Committing ⟨some 1⟩ 2
      ⟨"", "", none, false⟩).2.1 rfl,
   (claim5_amended BState.Draft BState.Committing ⟨some 1⟩ 2
      ⟨"", "", none, false⟩).2.2.1 (by decide)⟩

/-- Terminal event of a spawned CLI process: either the close event with an
exit code (absent when killed by a signal) and the captured stdout/stderr, or
the error event of a process that failed to start. -/
inductive ProcEvent where
  | closed (code : Option Nat) (stdout stderr : String)
  | errored (msg : String)
deriving DecidableEq

/-- Rejection reasons of executeCliCommand, with the message each one
carries. -/
inductive CliError where
  | parseFailed (stdout : String)
  | cliFailed (stderr : String)
  | startFailed (msg : String)
deriving DecidableEq

/-- Error message attached to each rejection, as built in cliBridge. -/
def errMessage : CliError → String
  | CliError.parseFailed s => "Failed to parse CLI output: " ++ s
  | CliError.cliFailed s => "CLI command failed: " ++ s
  | CliError.startFailed m => "Failed to start CLI process: " ++ m

/-- cliBridge.executeCliCommand: resolve with the parsed stdout only on exit
code 0 with parseable stdout; reject on parse failure, nonzero (or absent)
exit code, or a spawn error. -/
def executeCliCommand {J : Type} (parse : String → Option J) :
    ProcEvent → Except CliError J
  | ProcEvent.closed code out err =>
    if code = some 0 then
      match parse out with
      | some j => Except.ok j
      | none => Except.error (CliError.parseFailed out)
    else Except.error (CliError.cliFailed err)
  | ProcEvent.errored m => Except.error (CliError.startFailed m)

/-- C8: a CLI invocation resolves with the JSON-parsed stdout exactly when
the process exits with code 0 and its stdout parses; a zero-exit invocation
with unparseable stdout, a nonzero (or signal-killed) exit and a failure to
start each reject, never resolving. -/
theorem claim8_execute_cli {J : Type} (parse : String → Option J)
    (ev : ProcEvent) (j : J) (code : Option Nat) (out err m : String) :
    (executeCliCommand parse ev = Except.ok j
        ↔ ∃ o e, ev = ProcEvent.closed (some 0) o e ∧ parse o = some j)
    ∧ (parse out = none →
        executeCliCommand parse (ProcEvent.closed (some 0) out err)
          = Except.error (CliError.parseFailed out))
    ∧ (¬ code = some 0 →
        executeCliCommand parse (ProcEvent.closed code out err)
          = Except.error (CliError.cliFailed err))
    ∧ executeCliCommand parse (ProcEvent.errored m)
        = Except.error (CliError.startFailed m) := by
  refine ⟨?_, ?_, ?_, rfl⟩
  · constructor
    · intro h
      cases ev with
      | closed c o e =>
        by_cases hc : c = some 0
        · subst hc
          cases hp : parse o with
          | some j' =>
            refine ⟨o, e, rfl, ?_⟩
            simp only [executeCliCommand, if_pos rfl, hp] at h
            cases h
            exact hp
          | none =>
            simp only [executeCliCommand, if_pos rfl, hp] at h
            exact absurd h (by simp)
        · simp only [executeCliCommand, if_neg hc] at h
          exact absurd h (by simp)
      | errored msg =>
        simp only [executeCliCommand] at h
        exact absurd h (by simp)
    · rintro ⟨o, e, rfl, hp⟩
      simp [executeCliCommand, hp]
  · intro hp
    simp [executeCliCommand, hp]
  · intro hc
    simp [executeCliCommand, hc]

/-- Witness for C8: concrete parse function and events exercising the
resolve and the reject equations. -/
theorem claim8_execute_cli_witness :
    (executeCliCommand (fun s => if s = "ok" then some 1 else none)
        (ProcEvent.closed (some 0) "ok" "") = Except.ok 1
      ↔ ∃ o e, ProcEvent.closed (some 0) "ok" ""
          = ProcEvent.closed (some 0) o e
          ∧ (if o = "ok" then some 1 else none) = some 1)
    ∧ executeCliCommand (fun s => if s = "ok" then some 1 else none)
        (ProcEvent.closed (some 0) "bad" "")
        = Except.error (CliError.parseFailed "bad")
    ∧ executeCliCommand (fun s => if s = "ok" then some 1 else none)
        (ProcEvent.closed none "out" "boom")
        = Except.error (CliError.cliFailed "boom") :=
  ⟨(claim8_execute_cli (fun s => if s = "ok" then some 1 else none)
      (ProcEvent.closed (some 0) "ok" "") 1 none "bad" "" "m").1,
   (claim8_execute_cli (fun s => if s = "ok" then some 1 else none)
      (ProcEvent.closed (some 0) "ok" "") 1 none "bad" "" "m").2.1 (by decide),
   (claim8_execute_cli (fun s => if s = "ok" then some 1 else none)
      (ProcEvent.closed none "out" "boom") 1 none "out" "boom" "m").2.2.1 (by decide)⟩

/-- Payload of a reply sent back to the renderer over IPC. -/
inductive Reply (J : Type) where
  | success (j : J)
  | errorMsg (message : String)
  | nullReply
  | emptyFileList
deriving DecidableEq

/-- cliBridge IPC handler for one command: on success it replies with the
result on the result channel; on failure it replies on the error channel with
the error's message and then also replies on the result channel with a
success-shaped placeholder (an empty file list for scan, null otherwise). -/
def cliHandler {J : Type} (name : String) (r : Except CliError J) :
    List (String × Reply J) :=
  match r with
  | Except.ok j => [(name ++ "-result", Reply.success j)]
  | Except.error e =>
    [(name ++ "-error", Reply.errorMsg (errMessage e)),
     (name ++ "-result", if name = "scan" then Reply.emptyFileList else Reply.nullReply)]

/-- Renderer App state relevant to scan handling. -/
structure AppState where
  files : List String
  lastOpSuccess : Option Bool
deriving DecidableEq

/-- File list carried by a scan-result payload. -/
def filesOf : Reply (List String) → List String
  | Reply.success fs => fs
  | _ => []

/-- App.handleFileScan's scan-result callback: it stores the reply's file
list and records the last operation as a successful scan, whatever the
payload was. -/
def handleScanResult (payload : Reply (List String)) (st : AppState) : AppState :=
  { st with files := filesOf payload, lastOpSuccess := some true }

/-- C3 counterexample: when the scan CLI invocation fails, the bridge first
replies on scan-error but then also replies on scan-result with the
success-shaped empty file list, and the renderer's scan-result callback
records the failed scan as a successful scan operation. -/
theorem claim3_counterexample :
    cliHandler "scan" (Except.error (CliError.cliFailed "boom")
        : Except CliError (List String))
      = [("scan-error", Reply.errorMsg "CLI command failed: boom"),
         ("scan-result", Reply.emptyFileList)]
    ∧ handleScanResult Reply.emptyFileList ⟨["old.mp4"], none⟩
      = ⟨[], some true⟩ :=
  ⟨rfl, rfl⟩

/-- C3 amended: on a failed backend invocation the error kind's message is
always delivered on the dedicated error channel (never dropped), but each
handler additionally sends a success-shaped placeholder on the result channel
(an empty file list for scan, null for the others), and the renderer then
records the failed scan as a successful scan; successes are forwarded
unchanged. -/
theorem claim3_amended {J : Type} (name : String) (e : CliError) (j : J)
    (st : AppState) :
    cliHandler name (Except.error e : Except CliError J)
      = [(name ++ "-error", Reply.errorMsg (errMessage e)),
         (name ++ "-result",
          if name = "scan" then Reply.emptyFileList else Reply.nullReply)]
    ∧ cliHandler name (Except.ok j) = [(name ++ "-result", Reply.success j)]
    ∧ (handleScanResult Reply.emptyFileList st).lastOpSuccess = some true
    ∧ (handleScanResult Reply.emptyFileList st).files = [] :=
  ⟨rfl, rfl, rfl, rfl⟩

/-- Channels whitelisted for window.api.send. -/
def sendWhitelist : List String :=
  ["scan", "rename", "preview", "commit", "undo", "status"]

/-- Channels whitelisted for window.api.receive and removeAllListeners. -/
def receiveWhitelist : List String :=
  ["scan-result", "rename-result", "preview-result", "commit-result",
   "undo-result", "status-result",
   "status-error", "scan-error", "rename-error", "preview-error",
   "commit-error", "undo-error",
   "subtitle-search-error", "subtitle-download-error", "subtitle-validate-error"]

/-- preload window.api.send: forwards to ipcRenderer only for whitelisted
channels, otherwise does nothing. -/
def apiSend {D : Type} (channel : String) (data : D) : Option (String × D) :=
  if channel ∈ sendWhitelist then some (channel, data) else none

/-- preload window.api.receive: attaches a listener only for whitelisted
result/error channels. -/
def apiReceive (channel : String) : Option String :=
  if channel ∈ receiveWhitelist then some channel else none

/-- preload window.api.removeAllListeners: removes listeners only for
whitelisted result/error channels. -/
def apiRemoveAllListeners (channel : String) : Option String :=
  if channel ∈ receiveWhitelist then some channel else none

/-- C9: window.api.send forwards a message exactly when the channel is one of
scan, rename, preview, commit, undo, status, and does nothing otherwise;
receive and removeAllListeners attach or remove listeners exactly for the
fixed whitelist of result/error channels. -/
theorem claim9_preload {D : Type} (channel : String) (data : D) :
    (apiSend channel data = some (channel, data)
        ↔ channel ∈ (["scan", "rename", "preview", "commit", "undo", "status"]
          : List String))
    ∧ (apiSend channel data = none
        ↔ ¬ channel ∈ (["scan", "rename", "preview", "commit", "undo", "status"]
          : List String))
    ∧ ((apiReceive channel).isSome ↔ channel ∈ receiveWhitelist)
    ∧ ((apiRemoveAllListeners channel).isSome ↔ channel ∈ receiveWhitelist) := by
  refine ⟨?_, ?_, ?_, ?_⟩
  · constructor
    · intro hs
      by_cases h : channel ∈ sendWhitelist
      · simpa [sendWhitelist] using h
      · simp [apiSend, h] at hs
    · intro h
      have h' : channel ∈ sendWhitelist := by simpa [sendWhitelist] using h
      simp [apiSend, h']
  · constructor
    · intro hs
      by_cases h : channel ∈ sendWhitelist
      · simp [apiSend, h] at hs
      · simpa [sendWhitelist] using h
    · intro h
      have h' : ¬ channel ∈ sendWhitelist := by simpa [sendWhitelist] using h
      simp [apiSend, h']
  · by_cases h : channel ∈ receiveWhitelist <;> simp [apiReceive, h]
  · by_cases h : channel ∈ receiveWhitelist <;> simp [apiRemoveAllListeners, h]

/-- A subtitle stream as rendered by the file explorer. -/
structure SubtitleStream where
  index : Nat
  language : Option String
  title : Option String
  codec : String
deriving DecidableEq

/-- First-occurrence deduplication, as performed by the indexOf filter. -/
def dedupFirst (seen : List String) : List String → List String
  | [] => []
  | x :: xs =>
    if x ∈ seen then dedupFirst seen xs else x :: dedupFirst (x :: seen) xs

/-- Distinct languages of the streams in order of first occurrence, a missing
language counting as Unknown. -/
def streamLangs (ss : List SubtitleStream) : List String :=
  dedupFirst [] (ss.map (fun s => s.language.getD "Unknown"))

/-- Comma-space join, as Array.join with a comma separator. -/
def joinComma : List String → String
  | [] => ""
  | [x] => x
  | x :: xs => x ++ ", " ++ joinComma xs

/-- FileExplorer.getSubtitleSummary. -/
def getSubtitleSummary (subtitleStreams : Option (List SubtitleStream)) : String :=
  match subtitleStreams with
  | none => "No subs"
  | some ss =>
    if ss.length = 0 then "No subs"
    else
      let languages := (streamLangs ss).take 2
      if languages.length = 1 then
        toString ss.length ++ " sub (" ++ languages.headD "" ++ ")"
      else if languages.length = 2 then
        toString ss.length ++ " subs (" ++ joinComma languages ++ ")"
      else
        toString ss.length ++ " subs"

/-- C10 counterexample: three streams spanning three distinct languages still
get the first two language names appended, instead of the bare count the
claim prescribes for more than two languages. -/
theorem claim10_counterexample :
    streamLangs [⟨0, some "English", none, "subrip"⟩,
                 ⟨1, some "French", none, "subrip"⟩,
                 ⟨2, some "German", none, "subrip"⟩]
      = ["English", "French", "German"]
    ∧ getSubtitleSummary (some [⟨0, some "English", none, "subrip"⟩,
                 ⟨1, some "French", none, "subrip"⟩,
                 ⟨2, some "German", none, "subrip"⟩])
      = "3 subs (English, French)"
    ∧ ¬ getSubtitleSummary (some [⟨0, some "English", none, "subrip"⟩,
                 ⟨1, some "French", none, "subrip"⟩,
                 ⟨2, some "German", none, "subrip"⟩])
      = "3 subs" := by
  refine ⟨rfl, rfl, ?_⟩
  decide

/-- C10 amended: the summary is No subs for an absent or empty stream list;
for a nonempty list it reports the total stream count and always appends the
first at most two distinct language names in order of first occurrence
(missing languages counting as Unknown): the singular sub form with one
distinct language, and the plural subs form with the first two distinct
languages otherwise; the bare-count form is unreachable for nonempty lists
because the deduplicated language list is never empty. -/
theorem claim10_amended (ss : List SubtitleStream) (h : ¬ ss = []) :
    getSubtitleSummary none = "No subs"
    ∧ getSubtitleSummary (some []) = "No subs"
    ∧ getSubtitleSummary (some ss) =
        (match (streamLangs ss).take 2 with
         | [l] => toString ss.length ++ " sub (" ++ l ++ ")"
         | [l1, l2] => toString ss.length ++ " subs (" ++ l1 ++ ", " ++ l2 ++ ")"
         | _ => toString ss.length ++ " subs")
    ∧ ¬ streamLangs ss = [] := by
  have hlangs : ¬ streamLangs ss = [] := by
    cases ss with
    | nil => exact absurd rfl h
    | cons s ss' =>
      simp [streamLangs, dedupFirst]
  refine ⟨rfl, rfl, ?_, hlangs⟩
  simp only [getSubtitleSummary]
  have hlen : ¬ ss.length = 0 := fun hc => h (List.eq_nil_of_length_eq_zero hc)
  rw [if_neg hlen]
  have htake : ((streamLangs ss).take 2).length ≤ 2 := by
    rw [List.length_take]
    exact min_le_left _ _
  cases hl : (streamLangs ss).take 2 with
  | nil =>
    exfalso
    apply hlangs
    cases hs : streamLangs ss with
    | nil => rfl
    | cons a as => rw [hs] at hl; simp [List.take] at hl
  | cons a tl =>
    cases tl with
    | nil => simp
    | cons b tl2 =>
      cases tl2 with
      | nil => simp [joinComma, String.append_assoc]
      | cons c tl3 =>
        rw [hl] at htake
        simp at htake

/-- Witness for C10 amended at a concrete one-stream list. -/
theorem claim10_amended_witness :
    ¬ ([⟨0, some "English", none, "subrip"⟩] : List SubtitleStream) = []
    ∧ (getSubtitleSummary none = "No subs"
      ∧ getSubtitleSummary (some []) = "No subs"
      ∧ getSubtitleSummary (some [⟨0, some "English", none, "subrip"⟩]) =
          (match (streamLangs [⟨0, some "English", none, "subrip"⟩]).take 2 with
           | [l] => toString (List.length
                ([⟨0, some "English", none, "subrip"⟩] : List SubtitleStream))
                ++ " sub (" ++ l ++ ")"
           | [l1, l2] => toString (List.length
                ([⟨0, some "English", none, "subrip"⟩] : List SubtitleStream))
                ++ " subs (" ++ l1 ++ ", " ++ l2 ++ ")"
           | _ => toString (List.length
                ([⟨0, some "English", none, "subrip"⟩] : List SubtitleStream))
                ++ " subs")
      ∧ ¬ streamLangs [⟨0, some "English", none, "subrip"⟩] = []) :=
  ⟨by decide, claim10_amended [⟨0, some "English", none, "subrip"⟩] (by decide)⟩

end MediaManager
